import Mathlib

set_option maxRecDepth 100000

/-!
Verification development for an ONVIF camera client library (Go).

The repository's protocol core is shallowly embedded here:
strings are modelled as `List Char`, byte strings as `List Nat`
(each entry < 256), machine words as `Nat` reduced modulo `2 ^ 32`,
Go functions that can panic return `Option`, and Go functions that
return `([]byte, error)` pairs return pairs of `Option`s.

Each embedded definition is translated from the named source function.
-/

namespace Onvif

/-- Strings are modelled as lists of characters. -/
abbrev LC := List Char

/-- The characters of a Lean string literal, used to write down the
string constants appearing in the Go source. -/
def strD (s : String) : LC := s.data

/-- The test `leadsList pat s` is true when `pat` occurs at the very start of `s`.
This is the primitive prefix test used by the models of `strings.Index`,
`strings.Contains` and `strings.HasPrefix`. -/
def leadsList : LC → LC → Bool
  | [], _ => true
  | _ :: _, [] => false
  | p :: ps, c :: cs => p = c && leadsList ps cs

/-- Worker for the model of Go `strings.Index`: scan `s` left to right,
returning the first position (offset by the accumulator `i`) where
`pat` starts. -/
def goIndexAux (pat : LC) : LC → Nat → Option Nat
  | [], i => if leadsList pat [] then some i else none
  | c :: rest, i =>
    if leadsList pat (c :: rest) then some i else goIndexAux pat rest (i + 1)

/-- Model of Go `strings.Index s pat`: `some i` for the first index at
which `pat` occurs in `s`, `none` when Go would return `-1`. -/
def goIndex (s pat : LC) : Option Nat := goIndexAux pat s 0

/-- Model of Go `strings.Contains`. -/
def goContains (s pat : LC) : Bool := (goIndex s pat).isSome

/-- Model of Go `unicode.IsSpace` (the White_Space code points). -/
def goIsSpace (c : Char) : Bool :=
  [9, 10, 11, 12, 13, 32, 0x85, 0xA0, 0x1680,
   0x2000, 0x2001, 0x2002, 0x2003, 0x2004, 0x2005, 0x2006, 0x2007,
   0x2008, 0x2009, 0x200A, 0x2028, 0x2029, 0x202F, 0x205F, 0x3000].contains c.toNat

/-- Worker for the model of Go `strings.Fields`; `cur` is the current
token accumulated in reverse. -/
def goFieldsAux : LC → LC → List LC
  | [], cur => if cur = [] then [] else [cur.reverse]
  | c :: rest, cur =>
    if goIsSpace c then
      if cur = [] then goFieldsAux rest [] else cur.reverse :: goFieldsAux rest []
    else goFieldsAux rest (c :: cur)

/-- Model of Go `strings.Fields`: split around runs of whitespace;
no empty tokens are produced. -/
def goFields (s : LC) : List LC := goFieldsAux s []

/-- Worker for the model of Go `strings.Split(s, " ")`. -/
def splitSpaceAux : LC → LC → List LC
  | [], cur => [cur.reverse]
  | c :: rest, cur =>
    if c = ' ' then cur.reverse :: splitSpaceAux rest []
    else splitSpaceAux rest (c :: cur)

/-- Model of Go `strings.Split(s, " ")`: split at every single space,
keeping empty tokens (`Split("", " ") = [""]`). -/
def splitSpace (s : LC) : List LC := splitSpaceAux s []

/-- Model of Go `strings.TrimSpace`: drop leading and trailing
whitespace. -/
def trimSpace (s : LC) : LC :=
  ((s.dropWhile goIsSpace).reverse.dropWhile goIsSpace).reverse

/-- Model of Go `strings.Replace(s, old, new, 1)`: replace the first
occurrence of `old` (if any) by `new`. -/
def replaceFirst (s old new : LC) : LC :=
  match goIndex s old with
  | none => s
  | some i => s.take i ++ new ++ s.drop (i + old.length)

/-- Model of Go `strings.ReplaceAll(s, old, new)` for a single-character
`old`: single-character matches cannot overlap, so `ReplaceAll`
substitutes each occurrence of the character independently. -/
def replaceAllCS (oldc : Char) (new : LC) : LC → LC
  | [] => []
  | c :: rest => (if c = oldc then new else [c]) ++ replaceAllCS oldc new rest

/-! ### First-occurrence lemmas for the `strings.Index` model -/

theorem leadsList_append {pat a : LC} (b : LC) (h : leadsList pat a = true) :
    leadsList pat (a ++ b) = true := by
  induction pat generalizing a with
  | nil => rfl
  | cons p ps ih =>
    cases a with
    | nil => simp [leadsList] at h
    | cons c cs =>
      simp only [leadsList, Bool.and_eq_true] at h ⊢
      exact ⟨h.1, ih h.2⟩

theorem leadsList_self_append (a b : LC) : leadsList a (a ++ b) = true := by
  induction a with
  | nil => rfl
  | cons c cs ih => simp [leadsList, ih]

theorem goIndexAux_isSome_of_drop (pat : LC) :
    ∀ (s : LC) (i j : Nat), leadsList pat (s.drop j) = true →
      (goIndexAux pat s i).isSome = true := by
  intro s
  induction s with
  | nil =>
    intro i j h
    simp only [List.drop_nil] at h
    simp [goIndexAux, h]
  | cons c rest ih =>
    intro i j h
    by_cases hl : leadsList pat (c :: rest) = true
    · simp [goIndexAux, hl]
    · cases j with
      | zero => simp only [List.drop] at h; exact absurd h hl
      | succ j' =>
        simp only [List.drop] at h
        simpa [goIndexAux, hl] using ih (i + 1) j' h

/-- If `pat` occurs somewhere in `s`, then the model of
`strings.Contains` reports it. -/
theorem goContains_of_drop {s pat : LC} (i : Nat)
    (h : leadsList pat (s.drop i) = true) : goContains s pat = true := by
  unfold goContains goIndex
  exact goIndexAux_isSome_of_drop pat s 0 i h

/-! ### Dropping across appends -/

theorem drop_append_len (a : LC) : ∀ (b : LC) (k : Nat),
    (a ++ b).drop (a.length + k) = b.drop k := by
  induction a with
  | nil => intro b k; simp
  | cons c cs ih =>
    intro b k
    simp [Nat.succ_add, ih b k]

theorem drop_append_le (a : LC) : ∀ (b : LC) (k : Nat), k ≤ a.length →
    (a ++ b).drop k = a.drop k ++ b := by
  induction a with
  | nil =>
    intro b k hk
    obtain rfl : k = 0 := Nat.le_zero.mp (by simpa using hk)
    simp
  | cons c cs ih =>
    intro b k hk
    cases k with
    | zero => simp
    | succ k' =>
      simp only [List.length_cons, Nat.succ_le_succ_iff] at hk
      simpa using ih b k' hk

/-! ### Discovery data model and deduplication (src/discovery.go, src/types.go) -/

/-- The discovery-relevant fields of the `Camera` struct from
src/unnamed/part_007 (types file).  The remaining fields
(hostname, device information, capabilities) are populated by later
RPCs and are never read by the discovery/deduplication code embedded
here, so they are omitted from the model. -/
structure Camera where
  name : LC
  address : LC
  profiles : List LC
  model : LC
  location : LC
deriving DecidableEq

/-- The deduplication key of a camera: the first whitespace-separated
token of its address field (`strings.Fields(camera.Address)[0]`),
defaulting to `[]` when there is no token. -/
def keyOf (c : Camera) : LC := (goFields c.address).headD []

/-- The `exists` lookup on the Go `map[string]Camera`, modelled as an
association list. -/
def mapHasKey (acc : List (LC × Camera)) (key : LC) : Bool :=
  acc.any fun p => decide (p.1 = key)

/-- The loop body of `deduplicateCameras` from src/discovery.go.
Go's `addresses[0]` on an empty `strings.Fields` result is an
index-out-of-range panic, modelled as `none`.  The Go map is modelled
as an insertion-ordered association list; Go's map iteration order is
unspecified, so only order-insensitive consequences are meaningful. -/
def dedupInsert : List (LC × Camera) → List Camera → Option (List (LC × Camera))
  | acc, [] => some acc
  | acc, c :: cs =>
    match goFields c.address with
    | [] => none
    | key :: _ =>
      if mapHasKey acc key then dedupInsert acc cs
      else dedupInsert (acc ++ [(key, c)]) cs

/-- Model of `deduplicateCameras` from src/discovery.go: build the map
keyed by the first address token (first write wins), then collect the
values.  `none` models the panic on a camera whose address has no
whitespace-separated tokens. -/
def deduplicateCameras (cameras : List Camera) : Option (List Camera) :=
  (dedupInsert [] cameras).map fun m => m.map Prod.snd

/-- Specification-level deduplication, written from the spec's words:
keep a candidate iff its key (first whitespace-separated address
token) has not been seen before; first-seen wins. -/
def firstSeen : List LC → List Camera → List Camera
  | _, [] => []
  | seen, c :: cs =>
    if keyOf c ∈ seen then firstSeen seen cs
    else c :: firstSeen (keyOf c :: seen) cs

/-- Specification-level deduplication of a candidate list. -/
def dedupFirstSeenSpec (l : List Camera) : List Camera := firstSeen [] l

/-! ### Scope parsing (src/discovery.go, parseScopes) -/

/-- The ONVIF display-name scope URI pattern. -/
def namePat : LC := strD "onvif://www.onvif.org/name/"

/-- The ONVIF location scope URI pattern. -/
def locationPat : LC := strD "onvif://www.onvif.org/location/"

/-- The ONVIF hardware scope URI pattern. -/
def hardwarePat : LC := strD "onvif://www.onvif.org/hardware/"

/-- The value transformation applied by `parseScopes` once a pattern
matched: remove the first occurrence of the pattern, then replace every
underscore with a space. -/
def scopeStrip (pat t : LC) : LC :=
  replaceAllCS '_' [' '] (replaceFirst t pat [])

/-- One iteration of the `parseScopes` loop from src/discovery.go:
trim the token, then the `Contains` if/else-if chain (name before
location before hardware; unmatched tokens leave the state unchanged). -/
def parseScopesStep (acc : LC × LC × LC) (raw : LC) : LC × LC × LC :=
  let scope := trimSpace raw
  if goContains scope namePat then (scopeStrip namePat scope, acc.2.1, acc.2.2)
  else if goContains scope locationPat then (acc.1, scopeStrip locationPat scope, acc.2.2)
  else if goContains scope hardwarePat then (acc.1, acc.2.1, scopeStrip hardwarePat scope)
  else acc

/-- Model of `parseScopes` from src/discovery.go: split the scope
string on single spaces and fold the loop body over the tokens,
returning `(name, location, model)`. -/
def parseScopes (scopes : LC) : LC × LC × LC :=
  (splitSpace scopes).foldl parseScopesStep ([], [], [])

/-! ### SHA-1 and Base64 (crypto/sha1, encoding/base64), used by
`generatePasswordDigest` in src/soap.go -/

/-- Reduction modulo `2 ^ 32`, the width of SHA-1 words. -/
def w32 (n : Nat) : Nat := n % 4294967296

/-- 32-bit left rotation. -/
def rotl32 (b n : Nat) : Nat :=
  let m := w32 n
  w32 (m <<< b) ||| (m >>> (32 - b))

/-- The low `k` bytes of `n`, big-endian. -/
def beBytes : Nat → Nat → List Nat
  | 0, _ => []
  | k + 1, n => ((n >>> (8 * k)) % 256) :: beBytes k n

/-- SHA-1 padding: append `0x80`, zero-pad to 56 mod 64, then the
64-bit big-endian bit length. -/
def sha1Pad (msg : List Nat) : List Nat :=
  msg ++ 128 :: List.replicate ((119 - msg.length % 64) % 64) 0
      ++ beBytes 8 (msg.length * 8)

/-- Worker for `chunks64`; the fuel is an upper bound on the number of
chunks, making the recursion structural (each step consumes at least
one byte, so `l.length` fuel always suffices). -/
def chunks64Aux : Nat → List Nat → List (List Nat)
  | 0, _ => []
  | _ + 1, [] => []
  | fuel + 1, x :: rest => ((x :: rest).take 64) :: chunks64Aux fuel ((x :: rest).drop 64)

/-- Split a byte list into 64-byte chunks. -/
def chunks64 (l : List Nat) : List (List Nat) := chunks64Aux l.length l

/-- The 16 initial 32-bit words of a 64-byte chunk, big-endian. -/
def wordsOfChunk (chunk : List Nat) : List Nat :=
  (List.range 16).map fun i =>
    ((chunk.getD (4 * i) 0) <<< 24) + ((chunk.getD (4 * i + 1) 0) <<< 16) +
    ((chunk.getD (4 * i + 2) 0) <<< 8) + chunk.getD (4 * i + 3) 0

/-- Extend the message schedule by `k` words:
`w[i] = rotl1 (w[i-3] xor w[i-8] xor w[i-14] xor w[i-16])`. -/
def sha1Extend : List Nat → Nat → List Nat
  | w, 0 => w
  | w, k + 1 =>
    sha1Extend
      (w ++ [rotl32 1 ((w.getD (w.length - 3) 0) ^^^ (w.getD (w.length - 8) 0) ^^^
                       (w.getD (w.length - 14) 0) ^^^ (w.getD (w.length - 16) 0))]) k

/-- The SHA-1 round function for round `i`. -/
def sha1F (i b c d : Nat) : Nat :=
  if i < 20 then (b &&& c) ||| ((b ^^^ 4294967295) &&& d)
  else if i < 40 then b ^^^ c ^^^ d
  else if i < 60 then (b &&& c) ||| (b &&& d) ||| (c &&& d)
  else b ^^^ c ^^^ d

/-- The SHA-1 round constant for round `i`. -/
def sha1K (i : Nat) : Nat :=
  if i < 20 then 0x5A827999
  else if i < 40 then 0x6ED9EBA1
  else if i < 60 then 0x8F1BBCDC
  else 0xCA62C1D6

/-- One SHA-1 compression round. -/
def sha1Round (st : Nat × Nat × Nat × Nat × Nat) (iw : Nat × Nat) :
    Nat × Nat × Nat × Nat × Nat :=
  let (a, b, c, d, e) := st
  let t := w32 (rotl32 5 a + sha1F iw.1 b c d + e + sha1K iw.1 + iw.2)
  (t, a, rotl32 30 b, c, d)

/-- Process one 64-byte chunk against the running hash state. -/
def sha1Chunk (h : Nat × Nat × Nat × Nat × Nat) (chunk : List Nat) :
    Nat × Nat × Nat × Nat × Nat :=
  let ws := sha1Extend (wordsOfChunk chunk) 64
  let (a, b, c, d, e) := ((List.range 80).zip ws).foldl sha1Round h
  (w32 (h.1 + a), w32 (h.2.1 + b), w32 (h.2.2.1 + c),
   w32 (h.2.2.2.1 + d), w32 (h.2.2.2.2 + e))

/-- SHA-1 of a byte string, as its 20-byte digest.  Models Go's
`sha1.New` / sequential `Write` calls / `Sum(nil)`: an incremental
hash over several `Write`s equals the hash of the concatenated input. -/
def sha1 (msg : List Nat) : List Nat :=
  let (h0, h1, h2, h3, h4) :=
    (chunks64 (sha1Pad msg)).foldl sha1Chunk
      (0x67452301, 0xEFCDAB89, 0x98BADCFE, 0x10325476, 0xC3D2E1F0)
  beBytes 4 h0 ++ beBytes 4 h1 ++ beBytes 4 h2 ++ beBytes 4 h3 ++ beBytes 4 h4

/-- The standard Base64 alphabet character for a 6-bit value. -/
def b64Char (n : Nat) : Char :=
  (strD "ABCDEFGHIJKLMNOPQRSTUVWXYZabcdefghijklmnopqrstuvwxyz0123456789+/").getD n 'A'

/-- Model of Go `base64.StdEncoding.EncodeToString`: standard alphabet
with `=` padding. -/
def base64Encode : List Nat → LC
  | [] => []
  | [a] =>
    let n := a <<< 16
    [b64Char ((n >>> 18) &&& 63), b64Char ((n >>> 12) &&& 63),
     Char.ofNat 61, Char.ofNat 61]
  | [a, b] =>
    let n := (a <<< 16) + (b <<< 8)
    [b64Char ((n >>> 18) &&& 63), b64Char ((n >>> 12) &&& 63),
     b64Char ((n >>> 6) &&& 63), Char.ofNat 61]
  | a :: b :: c :: rest =>
    let n := (a <<< 16) + (b <<< 8) + c
    b64Char ((n >>> 18) &&& 63) :: b64Char ((n >>> 12) &&& 63) ::
    b64Char ((n >>> 6) &&& 63) :: b64Char (n &&& 63) :: base64Encode rest

/-- The UTF-8 bytes of an ASCII string (all corpus strings used below
are ASCII, where UTF-8 bytes coincide with code points). -/
def strBytes (s : String) : List Nat := s.data.map Char.toNat

/-- Model of `generatePasswordDigest` from src/soap.go.  The Go
function reads the clock to produce the `created` timestamp string and
the nanosecond-derived `nonce` string; these clock-derived byte
strings are taken as parameters here.  It hashes
nonce ‖ created ‖ password with SHA-1 and returns
`(digest, base64 nonce, created)`. -/
def generatePasswordDigest (nonceBytes createdBytes passwordBytes : List Nat) :
    LC × LC × List Nat :=
  (base64Encode (sha1 (nonceBytes ++ createdBytes ++ passwordBytes)),
   base64Encode nonceBytes, createdBytes)

/-! ### XML escaping (src/unnamed/part_007, escapeXML) -/

/-- The characters of the entity `escapeXML` substitutes for `&`. -/
def ampEntity : LC := ['&', 'a', 'm', 'p', ';']

/-- The characters of the entity `escapeXML` substitutes for `<`. -/
def ltEntity : LC := ['&', 'l', 't', ';']

/-- The characters of the entity `escapeXML` substitutes for `>`. -/
def gtEntity : LC := ['&', 'g', 't', ';']

/-- The characters of the entity `escapeXML` substitutes for the
apostrophe (code point 39). -/
def aposEntity : LC := ['&', 'a', 'p', 'o', 's', ';']

/-- The characters of the entity `escapeXML` substitutes for the
double quote (code point 34). -/
def quotEntity : LC := ['&', 'q', 'u', 'o', 't', ';']

/-- Model of `escapeXML` from src/unnamed/part_007: five sequential
`strings.ReplaceAll` passes, ampersand first. -/
def escapeXML (s : LC) : LC :=
  replaceAllCS (Char.ofNat 34) quotEntity
    (replaceAllCS (Char.ofNat 39) aposEntity
      (replaceAllCS '>' gtEntity
        (replaceAllCS '<' ltEntity
          (replaceAllCS '&' ampEntity s))))

/-- The five XML entities `escapeXML` can emit. -/
def xmlEntities : List LC :=
  [ampEntity, ltEntity, gtEntity, aposEntity, quotEntity]

/-- The per-character substitution that the five sequential passes of
`escapeXML` amount to (proved below in `escapeXML_eq_flatMap`). -/
def escRule (c : Char) : LC :=
  if c = '&' then ampEntity
  else if c = '<' then ltEntity
  else if c = '>' then gtEntity
  else if c = Char.ofNat 39 then aposEntity
  else if c = Char.ofNat 34 then quotEntity
  else [c]

/-! ### Fault detection and namespace-agnostic extraction
(src/unnamed/part_007, first file: containsSOAPFault, parseSOAPFault,
extractBetweenTags, extractTextElement) -/

/-- Model of `containsSOAPFault` from src/unnamed/part_007: a `Fault`
element with any namespace prefix or none. -/
def containsSOAPFault (resp : LC) : Bool :=
  goContains resp (strD ":Fault>") || goContains resp (strD ":Fault ") ||
  goContains resp (strD "<Fault>") || goContains resp (strD "<Fault ")

/-- The backward scan in `extractBetweenTags`:
`for i := idx - 1; i >= 0 && i > idx-20; i--`, looking for `'<'`.
`walkBackFrom i fuel` visits `i, i-1, ...` for at most `fuel` steps,
stopping at index 0. -/
def walkBackFrom (s : LC) : Nat → Nat → Option Nat
  | _, 0 => none
  | i, fuel + 1 =>
    if s.getD i ' ' = '<' then some i
    else match i with
      | 0 => none
      | i' + 1 => walkBackFrom s i' fuel

/-- Walk back from just before `idx` (at most 19 positions, as in the
source's `i > idx-20` bound) to find the `'<'` that opens the tag. -/
def walkBack (s : LC) (idx : Nat) : Option Nat :=
  match idx with
  | 0 => none
  | i + 1 => walkBackFrom s i 19

/-- Model of `extractBetweenTags` from src/unnamed/part_007 (first
file): find the opening tag by trying `"<name>"`, then `"<name "`,
then a `":name>"` marker with a backward scan for `'<'`; then take the
text from just after the next `'>'` up to the first `":name>"`
(falling back to `"</name>"`) marker.  Returns `[]` where Go returns
`""`. -/
def extractBetweenTags (s localName : LC) : LC :=
  let openIdx? : Option Nat :=
    match goIndex s ('<' :: localName ++ ['>']) with
    | some i => some i
    | none =>
      match goIndex s ('<' :: localName ++ [' ']) with
      | some i => some i
      | none =>
        match goIndex s (':' :: localName ++ ['>']) with
        | some idx => walkBack s idx
        | none => none
  match openIdx? with
  | none => []
  | some openIdx =>
    match goIndex (s.drop openIdx) ['>'] with
    | none => []
    | some g =>
      let contentStart := g + openIdx + 1
      let rest := s.drop contentStart
      match goIndex rest (':' :: localName ++ ['>']) with
      | some closeIdx => rest.take closeIdx
      | none =>
        match goIndex rest (strD "</" ++ localName ++ ['>']) with
        | some closeIdx => rest.take closeIdx
        | none => []

/-- Model of `extractTextElement` from src/unnamed/part_007 (first
file).  The closing-tag search mirrors the source literally: the
source computes `closeTag := "</" + closeMarker` for each
`closeMarker` in `{":Text>", "</Text>"}`, i.e. it searches for
`"</:Text>"` and then `"</</Text>"`. -/
def extractTextElement (s : LC) : LC :=
  let textStart? : Option Nat :=
    match goIndex s (strD ":Text ") with
    | some i => some i
    | none =>
      match goIndex s (strD ":Text>") with
      | some i => some i
      | none =>
        match goIndex s (strD "<Text ") with
        | some i => some i
        | none => goIndex s (strD "<Text>")
  match textStart? with
  | none => []
  | some textStart =>
    match goIndex (s.drop textStart) ['>'] with
    | none => []
    | some g =>
      let contentStart := textStart + g + 1
      let rest := s.drop contentStart
      match goIndex rest (strD "</" ++ strD ":Text>") with
      | some idx => rest.take idx
      | none =>
        match goIndex rest (strD "</" ++ strD "</Text>") with
        | some idx => rest.take idx
        | none => []

/-- The tail of `parseSOAPFault`: the SOAP 1.1 `faultstring`
extraction, else the generic fault message. -/
def faultFallback (resp : LC) : Option LC :=
  match goIndex resp (strD "<faultstring>") with
  | some start =>
    let start := start + 13
    match goIndex (resp.drop start) (strD "</faultstring>") with
    | some e => some (strD "SOAP fault: " ++ (resp.drop start).take e)
    | none => some (strD "SOAP fault in response")
  | none => some (strD "SOAP fault in response")

/-- Model of `parseSOAPFault` from src/unnamed/part_007 (first file):
`none` when no `Fault` element is present, otherwise the first match
in the ordered vendor fault-code table, else a SOAP 1.2
`Reason`→`Text` extraction, else a SOAP 1.1 `faultstring`, else the
generic fault message. -/
def parseSOAPFault (resp : LC) : Option LC :=
  if containsSOAPFault resp = false then none
  else if goContains resp (strD "ter:UsernameClash") then
    some (strD "username already exists")
  else if goContains resp (strD "ter:UsernameMissing") then
    some (strD "username not found")
  else if goContains resp (strD "ter:TooManyUsers") then
    some (strD "maximum number of users reached")
  else if goContains resp (strD "ter:FixedUser") then
    some (strD "cannot modify or delete fixed user")
  else if goContains resp (strD "ter:Password") then
    some (strD "password does not meet requirements")
  else if goContains resp (strD "NotAuthorized") || goContains resp (strD "ter:NotAuthorized") then
    some (strD "not authorized")
  else
    let reason := extractBetweenTags resp (strD "Reason")
    if reason = [] then faultFallback resp
    else
      let t := extractTextElement reason
      if t = [] then faultFallback resp
      else some (strD "SOAP fault: " ++ t)

/-! ### HTTP status handling and envelope construction (src/soap.go,
sendSOAPRequest) -/

/-- Model of `net/http.StatusText` for the status codes exercised
here (Go returns `""` for unknown codes). -/
def goStatusText (code : Nat) : LC :=
  if code = 400 then strD "Bad Request"
  else if code = 401 then strD "Unauthorized"
  else if code = 403 then strD "Forbidden"
  else if code = 404 then strD "Not Found"
  else if code = 500 then strD "Internal Server Error"
  else if code = 503 then strD "Service Unavailable"
  else []

/-- Model of the status-code epilogue of `sendSOAPRequest`
(src/soap.go): given the HTTP status and the fully read body, return
(the returned body, the returned error), each optional. -/
def statusCheck (status : Nat) (respBody : LC) : Option LC × Option LC :=
  if 400 ≤ status then
    if respBody.length = 0 then
      (none, some (strD "HTTP " ++ (toString status).data ++ strD " with empty response"))
    else
      (some respBody,
       some (strD "HTTP " ++ (toString status).data ++ strD ": " ++ goStatusText status))
  else (some respBody, none)

/-- The literal chunks of the WS-Security header template in
`sendSOAPRequest` (src/soap.go), split at the four `%s` verbs. -/
def secA : LC := strD "\n\t\t<Security xmlns=\"http://docs.oasis-open.org/wss/2004/01/oasis-200401-wss-wssecurity-secext-1.0.xsd\">\n\t\t\t<UsernameToken>\n\t\t\t\t<Username>"

/-- Template chunk between username and digest. -/
def secB : LC := strD "</Username>\n\t\t\t\t<Password Type=\"http://docs.oasis-open.org/wss/2004/01/oasis-200401-wss-username-token-profile-1.0#PasswordDigest\">"

/-- Template chunk between digest and nonce. -/
def secC : LC := strD "</Password>\n\t\t\t\t<Nonce EncodingType=\"http://docs.oasis-open.org/wss/2004/01/oasis-200401-wss-soap-message-security-1.0#Base64Binary\">"

/-- Template chunk between nonce and created timestamp. -/
def secD : LC := strD "</Nonce>\n\t\t\t\t<Created xmlns=\"http://docs.oasis-open.org/wss/2004/01/oasis-200401-wss-wssecurity-utility-1.0.xsd\">"

/-- Template chunk after the created timestamp. -/
def secE : LC := strD "</Created>\n\t\t\t</UsernameToken>\n\t\t</Security>"

/-- The WS-Security block `fmt.Sprintf` produces in `sendSOAPRequest`
for a non-empty username. -/
def securityBlock (username digest nonce created : LC) : LC :=
  secA ++ username ++ secB ++ digest ++ secC ++ nonce ++ secD ++ created ++ secE

/-- The `authHeader` value in `sendSOAPRequest`: empty for an empty
username, otherwise the WS-Security block. -/
def authHeader (username digest nonce created : LC) : LC :=
  if username = [] then [] else securityBlock username digest nonce created

/-- The envelope template of `sendSOAPRequest` up to the first `%s`
(the header content). -/
def envA : LC := strD "<?xml version=\"1.0\" encoding=\"UTF-8\"?>\n<s:Envelope xmlns:s=\"http://www.w3.org/2003/05/soap-envelope\"\n            xmlns:tds=\"http://www.onvif.org/ver10/device/wsdl\"\n            xmlns:trt=\"http://www.onvif.org/ver10/media/wsdl\"\n            xmlns:tt=\"http://www.onvif.org/ver10/schema\"\n            xmlns:timg=\"http://www.onvif.org/ver20/imaging/wsdl\"\n            xmlns:tr2=\"http://www.onvif.org/ver20/media/wsdl\">\n\t<s:Header>"

/-- The envelope template between the header content and the body. -/
def envB : LC := strD "</s:Header>\n\t<s:Body>"

/-- The envelope template after the body. -/
def envC : LC := strD "</s:Body>\n</s:Envelope>"

/-- The complete SOAP envelope `sendSOAPRequest` builds from the
client's username, the digest data, and the caller's body fragment. -/
def buildEnvelope (username digest nonce created body : LC) : LC :=
  envA ++ authHeader username digest nonce created ++ envB ++ body ++ envC

/-! ### Deduplication lemmas -/

theorem firstSeen_congr : ∀ (l : List Camera) (s₁ s₂ : List LC),
    (∀ k, k ∈ s₁ ↔ k ∈ s₂) → firstSeen s₁ l = firstSeen s₂ l := by
  intro l
  induction l with
  | nil => intro s₁ s₂ _; rfl
  | cons c cs ih =>
    intro s₁ s₂ h
    by_cases hm : keyOf c ∈ s₁
    · rw [firstSeen, firstSeen, if_pos hm, if_pos ((h _).mp hm)]
      exact ih s₁ s₂ h
    · rw [firstSeen, firstSeen, if_neg hm, if_neg (fun hx => hm ((h _).mpr hx))]
      refine congrArg _ (ih _ _ fun k => ?_)
      simp only [List.mem_cons]
      exact or_congr Iff.rfl (h k)

theorem mapHasKey_iff (acc : List (LC × Camera)) (key : LC) :
    mapHasKey acc key = true ↔ key ∈ acc.map Prod.fst := by
  rw [mapHasKey, List.any_eq_true]
  constructor
  · rintro ⟨p, hp, hd⟩
    exact List.mem_map.mpr ⟨p, hp, of_decide_eq_true hd⟩
  · intro h
    obtain ⟨p, hp, he⟩ := List.mem_map.mp h
    exact ⟨p, hp, decide_eq_true he⟩

theorem dedupInsert_spec : ∀ (l : List Camera) (acc : List (LC × Camera)),
    (∀ c ∈ l, goFields c.address ≠ []) →
    dedupInsert acc l =
      some (acc ++ (firstSeen (acc.map Prod.fst) l).map fun c => (keyOf c, c)) := by
  intro l
  induction l with
  | nil => intro acc _; simp [dedupInsert, firstSeen]
  | cons c cs ih =>
    intro acc h
    have hc : goFields c.address ≠ [] := h c (List.mem_cons_self c cs)
    have hcs : ∀ c' ∈ cs, goFields c'.address ≠ [] :=
      fun c' hm => h c' (List.mem_cons_of_mem c hm)
    obtain ⟨key, tl, heq⟩ : ∃ key tl, goFields c.address = key :: tl := by
      cases hgf : goFields c.address with
      | nil => exact absurd hgf hc
      | cons k t => exact ⟨k, t, rfl⟩
    have hkey : keyOf c = key := by simp [keyOf, heq]
    by_cases hex : mapHasKey acc key
    · have hmem : keyOf c ∈ acc.map Prod.fst := hkey ▸ (mapHasKey_iff acc key).mp hex
      rw [dedupInsert, heq]
      simp only [hex, if_true]
      rw [ih acc hcs, firstSeen, if_pos hmem]
    · have hmem : keyOf c ∉ acc.map Prod.fst :=
        fun hx => hex ((mapHasKey_iff acc key).mpr (hkey ▸ hx))
      rw [dedupInsert, heq]
      simp only [hex, if_false]
      rw [ih (acc ++ [(key, c)]) hcs, firstSeen, if_neg hmem]
      have hfst : (acc ++ [(key, c)]).map Prod.fst = acc.map Prod.fst ++ [key] := by
        simp
      have hseen : ∀ k, k ∈ (acc ++ [(key, c)]).map Prod.fst ↔
          k ∈ keyOf c :: acc.map Prod.fst := by
        intro k
        rw [hfst]
        constructor
        · intro hx
          rcases List.mem_append.mp hx with hx | hx
          · exact List.mem_cons_of_mem _ hx
          · have hk : k = keyOf c := by rw [hkey]; exact List.mem_singleton.mp hx
            exact List.mem_cons.mpr (Or.inl hk)
        · intro hx
          rcases List.mem_cons.mp hx with hx | hx
          · exact List.mem_append.mpr (Or.inr (List.mem_singleton.mpr (by rw [hx, hkey])))
          · exact List.mem_append.mpr (Or.inl hx)
      rw [firstSeen_congr _ _ _ hseen]
      simp [hkey]

theorem map_snd_comp_key (cs : List Camera) :
    cs.map (Prod.snd ∘ fun c => (keyOf c, c)) = cs := by
  induction cs with
  | nil => rfl
  | cons a as ih => simp [Function.comp, ih]

/-- The embedded `deduplicateCameras` refines the first-seen-by-key
specification whenever every address has at least one token. -/
theorem dedup_refines (l : List Camera)
    (h : ∀ c ∈ l, goFields c.address ≠ []) :
    deduplicateCameras l = some (dedupFirstSeenSpec l) := by
  rw [deduplicateCameras, dedupInsert_spec l [] h]
  simp [dedupFirstSeenSpec, map_snd_comp_key]

theorem firstSeen_subset : ∀ (l : List Camera) (seen : List LC) (c : Camera),
    c ∈ firstSeen seen l → c ∈ l := by
  intro l
  induction l with
  | nil => intro seen c h; simp [firstSeen] at h
  | cons a as ih =>
    intro seen c h
    rw [firstSeen] at h
    by_cases hm : keyOf a ∈ seen
    · rw [if_pos hm] at h
      exact List.mem_cons_of_mem a (ih seen c h)
    · rw [if_neg hm] at h
      rcases List.mem_cons.mp h with h | h
      · exact List.mem_cons.mpr (Or.inl h)
      · exact List.mem_cons_of_mem a (ih _ c h)

theorem firstSeen_keys : ∀ (l : List Camera) (seen : List LC),
    ((firstSeen seen l).map keyOf).Nodup ∧
    (∀ c ∈ firstSeen seen l, keyOf c ∉ seen) := by
  intro l
  induction l with
  | nil => intro seen; simp [firstSeen]
  | cons a as ih =>
    intro seen
    rw [firstSeen]
    by_cases hm : keyOf a ∈ seen
    · rw [if_pos hm]; exact ih seen
    · rw [if_neg hm]
      obtain ⟨hnd, hout⟩ := ih (keyOf a :: seen)
      refine ⟨?_, ?_⟩
      · simp only [List.map_cons, List.nodup_cons]
        refine ⟨?_, hnd⟩
        intro hx
        obtain ⟨c, hc, hkc⟩ := List.mem_map.mp hx
        exact (hout c hc) (by rw [hkc]; exact List.mem_cons_self _ _)
      · intro c hc
        rcases List.mem_cons.mp hc with h | h
        · rw [h]; exact hm
        · exact fun hs => (hout c h) (List.mem_cons_of_mem _ hs)

theorem firstSeen_id : ∀ (l : List Camera) (seen : List LC),
    (l.map keyOf).Nodup → (∀ c ∈ l, keyOf c ∉ seen) →
    firstSeen seen l = l := by
  intro l
  induction l with
  | nil => intro seen _ _; rfl
  | cons a as ih =>
    intro seen hnd hout
    rw [firstSeen, if_neg (hout a (List.mem_cons_self a as))]
    simp only [List.map_cons, List.nodup_cons] at hnd
    refine congrArg _ (ih _ hnd.2 fun c hc => ?_)
    intro hs
    rcases List.mem_cons.mp hs with h | h
    · exact hnd.1 (by rw [← h]; exact List.mem_map.mpr ⟨c, hc, rfl⟩)
    · exact hout c (List.mem_cons_of_mem a hc) h

theorem firstSeen_key_mem : ∀ (l : List Camera) (seen : List LC) (k : LC),
    (k ∈ (firstSeen seen l).map keyOf ↔ (k ∉ seen ∧ ∃ c ∈ l, keyOf c = k)) := by
  intro l
  induction l with
  | nil => intro seen k; simp [firstSeen]
  | cons a as ih =>
    intro seen k
    rw [firstSeen]
    by_cases hm : keyOf a ∈ seen
    · rw [if_pos hm, ih]
      constructor
      · rintro ⟨hk, c, hc, hkc⟩
        exact ⟨hk, c, List.mem_cons_of_mem a hc, hkc⟩
      · rintro ⟨hk, c, hc, hkc⟩
        rcases List.mem_cons.mp hc with h | h
        · exact absurd (by rw [← hkc, h]; exact hm) hk
        · exact ⟨hk, c, h, hkc⟩
    · rw [if_neg hm, List.map_cons]
      constructor
      · intro hx
        rcases List.mem_cons.mp hx with h | h
        · exact ⟨by rw [h]; exact hm, a, List.mem_cons_self a as, h.symm⟩
        · obtain ⟨hk, c, hc, hkc⟩ := (ih _ _).mp h
          exact ⟨fun hs => hk (List.mem_cons_of_mem _ hs), c,
                 List.mem_cons_of_mem a hc, hkc⟩
      · rintro ⟨hk, c, hc, hkc⟩
        rcases List.mem_cons.mp hc with h | h
        · exact List.mem_cons.mpr (Or.inl (by rw [← hkc, h]))
        · by_cases hka : k = keyOf a
          · exact List.mem_cons.mpr (Or.inl hka)
          · refine List.mem_cons.mpr (Or.inr ((ih _ _).mpr ⟨?_, c, h, hkc⟩))
            intro hs
            rcases List.mem_cons.mp hs with hx | hx
            · exact hka hx
            · exact hk hx

/-! ### Scope-parsing lemmas: the fold computes a last-match per field -/

/-- A token sets the display name iff (after trimming) it contains the
name pattern. -/
def selName (t : LC) : Bool := goContains (trimSpace t) namePat

/-- A token sets the location iff it contains the location pattern and
not the name pattern (the name branch shadows it). -/
def selLoc (t : LC) : Bool :=
  goContains (trimSpace t) locationPat && ! goContains (trimSpace t) namePat

/-- A token sets the hardware model iff it contains the hardware
pattern and neither the name nor the location pattern. -/
def selHw (t : LC) : Bool :=
  goContains (trimSpace t) hardwarePat && ! goContains (trimSpace t) namePat &&
  ! goContains (trimSpace t) locationPat

/-- The value a field of `parseScopes` ends with: the transform of the
last token selected by `sel`, or the default `d` when no token is
selected. -/
def lastSet (pat : LC) (sel : LC → Bool) (toks : List LC) (d : LC) : LC :=
  match (toks.filter sel).getLast? with
  | some t => scopeStrip pat (trimSpace t)
  | none => d

theorem lastSet_cons (pat : LC) (sel : LC → Bool) (t : LC) (ts : List LC) (d : LC) :
    lastSet pat sel (t :: ts) d =
      lastSet pat sel ts (if sel t then scopeStrip pat (trimSpace t) else d) := by
  by_cases h : sel t
  · rw [lastSet, lastSet, List.filter_cons_of_pos h, if_pos h]
    cases hfs : ts.filter sel with
    | nil => simp [hfs]
    | cons b l =>
      rw [List.getLast?_cons_cons]
      cases hgl : (b :: l).getLast? with
      | none => exact absurd (List.getLast?_eq_none_iff.mp hgl) (by simp)
      | some y => rfl
  · rw [lastSet, lastSet, List.filter_cons_of_neg h, if_neg h]

theorem parseScopesStep_eq (acc : LC × LC × LC) (t : LC) :
    parseScopesStep acc t =
      ((if selName t then scopeStrip namePat (trimSpace t) else acc.1),
       (if selLoc t then scopeStrip locationPat (trimSpace t) else acc.2.1),
       (if selHw t then scopeStrip hardwarePat (trimSpace t) else acc.2.2)) := by
  unfold parseScopesStep selName selLoc selHw
  by_cases h1 : goContains (trimSpace t) namePat <;>
    by_cases h2 : goContains (trimSpace t) locationPat <;>
      by_cases h3 : goContains (trimSpace t) hardwarePat <;>
        simp [h1, h2, h3]

theorem foldl_parseScopes : ∀ (toks : List LC) (acc : LC × LC × LC),
    toks.foldl parseScopesStep acc =
      (lastSet namePat selName toks acc.1,
       lastSet locationPat selLoc toks acc.2.1,
       lastSet hardwarePat selHw toks acc.2.2) := by
  intro toks
  induction toks with
  | nil => intro acc; simp [lastSet]
  | cons t ts ih =>
    intro acc
    rw [List.foldl_cons, ih, parseScopesStep_eq,
        lastSet_cons namePat, lastSet_cons locationPat, lastSet_cons hardwarePat]

/-! ### escapeXML lemmas -/

theorem replaceAllCS_append (o : Char) (new : LC) :
    ∀ a b : LC, replaceAllCS o new (a ++ b) = replaceAllCS o new a ++ replaceAllCS o new b := by
  intro a b
  induction a with
  | nil => rfl
  | cons c cs ih => simp [replaceAllCS, ih]

theorem escapeXML_append (a b : LC) :
    escapeXML (a ++ b) = escapeXML a ++ escapeXML b := by
  unfold escapeXML
  rw [replaceAllCS_append, replaceAllCS_append, replaceAllCS_append,
      replaceAllCS_append, replaceAllCS_append]

theorem escapeXML_single (c : Char) : escapeXML [c] = escRule c := by
  by_cases h1 : c = '&'
  · subst h1; rfl
  · by_cases h2 : c = '<'
    · subst h2; rfl
    · by_cases h3 : c = '>'
      · subst h3; rfl
      · by_cases h4 : c = Char.ofNat 39
        · subst h4; rfl
        · by_cases h5 : c = Char.ofNat 34
          · subst h5; rfl
          · simp [escapeXML, replaceAllCS, escRule, h1, h2, h3, h4, h5]

theorem escapeXML_eq_flatMap : ∀ s : LC, escapeXML s = s.flatMap escRule := by
  intro s
  induction s with
  | nil => rfl
  | cons c cs ih =>
    rw [List.flatMap_cons, ← ih, ← escapeXML_single c]
    exact escapeXML_append [c] cs

theorem escRule_chars (c x : Char) (hx : x ∈ escRule c) :
    x ≠ '<' ∧ x ≠ '>' ∧ x ≠ Char.ofNat 34 ∧ x ≠ Char.ofNat 39 := by
  by_cases h1 : c = '&'
  · subst h1
    simp [escRule, ampEntity] at hx
    rcases hx with rfl | rfl | rfl | rfl | rfl <;> decide
  · by_cases h2 : c = '<'
    · subst h2
      simp [escRule, ltEntity] at hx
      rcases hx with rfl | rfl | rfl | rfl <;> decide
    · by_cases h3 : c = '>'
      · subst h3
        simp [escRule, gtEntity] at hx
        rcases hx with rfl | rfl | rfl | rfl <;> decide
      · by_cases h4 : c = Char.ofNat 39
        · subst h4
          simp [escRule, aposEntity] at hx
          rcases hx with rfl | rfl | rfl | rfl | rfl | rfl <;> decide
        · by_cases h5 : c = Char.ofNat 34
          · subst h5
            simp [escRule, quotEntity] at hx
            rcases hx with rfl | rfl | rfl | rfl | rfl | rfl <;> decide
          · simp [escRule, h1, h2, h3, h4, h5] at hx
            subst hx
            exact ⟨h2, h3, h5, h4⟩

theorem block_amp (B rest : LC) (hB : B ∈ xmlEntities) :
    ∀ i, i < B.length → ((B ++ rest).drop i).head? = some '&' →
      ∃ e ∈ xmlEntities, leadsList e ((B ++ rest).drop i) = true := by
  rw [xmlEntities] at hB
  simp only [List.mem_cons, List.not_mem_nil, or_false] at hB
  rcases hB with rfl | rfl | rfl | rfl | rfl
  · intro i hlt h
    simp only [ampEntity, List.length_cons, List.length_nil] at hlt
    rw [ampEntity] at h ⊢
    interval_cases i
    · exact ⟨ampEntity, by decide, leadsList_self_append _ _⟩
    · simp at h
    · simp at h
    · simp at h
    · simp at h
  · intro i hlt h
    simp only [ltEntity, List.length_cons, List.length_nil] at hlt
    rw [ltEntity] at h ⊢
    interval_cases i
    · exact ⟨ltEntity, by decide, leadsList_self_append _ _⟩
    · simp at h
    · simp at h
    · simp at h
  · intro i hlt h
    simp only [gtEntity, List.length_cons, List.length_nil] at hlt
    rw [gtEntity] at h ⊢
    interval_cases i
    · exact ⟨gtEntity, by decide, leadsList_self_append _ _⟩
    · simp at h
    · simp at h
    · simp at h
  · intro i hlt h
    simp only [aposEntity, List.length_cons, List.length_nil] at hlt
    rw [aposEntity] at h ⊢
    interval_cases i
    · exact ⟨aposEntity, by decide, leadsList_self_append _ _⟩
    · simp at h
    · simp at h
    · simp at h
    · simp at h
    · simp at h
  · intro i hlt h
    simp only [quotEntity, List.length_cons, List.length_nil] at hlt
    rw [quotEntity] at h ⊢
    interval_cases i
    · exact ⟨quotEntity, by decide, leadsList_self_append _ _⟩
    · simp at h
    · simp at h
    · simp at h
    · simp at h
    · simp at h

theorem flatMap_amp : ∀ (s : LC) (i : Nat),
    ((s.flatMap escRule).drop i).head? = some '&' →
      ∃ e ∈ xmlEntities, leadsList e ((s.flatMap escRule).drop i) = true := by
  intro s
  induction s with
  | nil => intro i h; simp at h
  | cons c cs ih =>
    intro i h
    rw [List.flatMap_cons] at h ⊢
    rcases Nat.lt_or_ge i (escRule c).length with hlt | hge
    · by_cases hc : c = '&' ∨ c = '<' ∨ c = '>' ∨ c = Char.ofNat 39 ∨ c = Char.ofNat 34
      · have hB : escRule c ∈ xmlEntities := by
          rcases hc with rfl | rfl | rfl | rfl | rfl <;> decide
        exact block_amp (escRule c) _ hB i hlt h
      · push_neg at hc
        obtain ⟨hn1, hn2, hn3, hn4, hn5⟩ := hc
        have hr : escRule c = [c] := by
          rw [escRule, if_neg hn1, if_neg hn2, if_neg hn3, if_neg hn4, if_neg hn5]
        rw [hr] at hlt h ⊢
        obtain rfl : i = 0 := Nat.lt_one_iff.mp (by simpa using hlt)
        simp at h
        exact absurd h hn1
    · obtain ⟨k, rfl⟩ := Nat.exists_eq_add_of_le hge
      rw [drop_append_len] at h ⊢
      exact ih k h

/-! ### Concrete inputs used by the claims -/

/-- A discovery candidate whose address field is empty (no
whitespace-separated tokens). -/
def emptyAddressCamera : Camera :=
  { name := [], address := [], profiles := [], model := [], location := [] }

/-- Scenario B, first reply: a single advertised address. -/
def camB1 : Camera :=
  { name := [], address := strD "http://10.0.0.5/onvif/device_service",
    profiles := [], model := [], location := [] }

/-- Scenario B, second reply: the same canonical address with a
trailing second address. -/
def camB2 : Camera :=
  { name := [],
    address := strD "http://10.0.0.5/onvif/device_service http://10.0.0.5:8080/onvif/device_service",
    profiles := [], model := [], location := [] }

/-- Scenario C: a SOAP 1.2 fault body whose `Reason`→`Text` nesting
carries the text `Sender not authorized`, with none of the vendor
fault-code substrings of the classifier's table. -/
def scenarioCBody : LC := strD "<SOAP-ENV:Envelope><SOAP-ENV:Body><SOAP-ENV:Fault><SOAP-ENV:Code><SOAP-ENV:Value>SOAP-ENV:Sender</SOAP-ENV:Value></SOAP-ENV:Code><SOAP-ENV:Reason><SOAP-ENV:Text>Sender not authorized</SOAP-ENV:Text></SOAP-ENV:Reason></SOAP-ENV:Fault></SOAP-ENV:Body></SOAP-ENV:Envelope>"

/-- A scope token that begins with (hence contains) the location
pattern while also containing the name pattern further in. -/
def locNameToken : LC := strD "onvif://www.onvif.org/location/onvif://www.onvif.org/name/x"

/-- Corpus nonce bytes. -/
def corpusNonce : List Nat := strBytes "1700000000000000000"

/-- Corpus nonce bytes differing in the last digit. -/
def corpusNonce2 : List Nat := strBytes "1700000000000000001"

/-- Corpus created-timestamp bytes. -/
def corpusCreated : List Nat := strBytes "2024-01-02T03:04:05.678Z"

/-- Corpus created-timestamp bytes differing in the final millisecond. -/
def corpusCreated2 : List Nat := strBytes "2024-01-02T03:04:05.679Z"

/-- Corpus secret bytes. -/
def corpusSecret : List Nat := strBytes "secret"

/-- Corpus secret bytes differing in case of the last letter. -/
def corpusSecret2 : List Nat := strBytes "secreT"

/-! ### Claim theorems -/

/-- C1: the claim states that `deduplicateCameras` returns normally on
every input (treating an empty primary address as a decode failure)
and never merges under an empty key.  The code instead panics:
`strings.Fields` of an empty address yields no tokens and
`addresses[0]` is an index-out-of-range panic, modelled as `none`.
This theorem evaluates the embedding at the failing input: a
one-element candidate list with an empty address makes the whole
deduplication panic, and adding a healthy candidate does not save it. -/
theorem dedup_empty_address_panics :
    deduplicateCameras [emptyAddressCamera] = none ∧
    deduplicateCameras [camB1, emptyAddressCamera] = none ∧
    goFields emptyAddressCamera.address = [] := by
  decide

/-- C2: deduplication keys each candidate by the first
whitespace-separated token of its address and keeps the first-seen
candidate per key (proved against the first-seen specification
`dedupFirstSeenSpec` for every list whose addresses all tokenize), and
in Scenario B the two replies advertising
`http://10.0.0.5/onvif/device_service` collapse to exactly the first
candidate, keyed on that address. -/
theorem dedup_first_token_first_seen :
    (∀ l : List Camera, (∀ c ∈ l, goFields c.address ≠ []) →
        deduplicateCameras l = some (dedupFirstSeenSpec l)) ∧
    deduplicateCameras [camB1, camB2] = some [camB1] ∧
    keyOf camB1 = strD "http://10.0.0.5/onvif/device_service" ∧
    keyOf camB2 = strD "http://10.0.0.5/onvif/device_service" := by
  refine ⟨fun l h => dedup_refines l h, ?_, ?_, ?_⟩ <;> decide

/-- Witness for C2 at a concrete one-element list. -/
theorem dedup_first_token_first_seen_witness :
    deduplicateCameras [camB1] = some (dedupFirstSeenSpec [camB1]) :=
  dedup_first_token_first_seen.1 [camB1] (by decide)

/-- C3: the claim states that Scenario C classifies as not-authorized
or yields the message `Sender not authorized` extracted from the
`Reason`→`Text` nesting.  The code instead returns the generic
`SOAP fault in response`: `extractTextElement` searches for the
closing tag `"</" + ":Text>" = "</:Text>"` (and then `"</</Text>"`),
which can never match, so the `Reason`→`Text` extraction always comes
back empty.  This theorem evaluates the embedded classifier at the
Scenario C body. -/
theorem fault_reason_text_not_extracted :
    containsSOAPFault scenarioCBody = true ∧
    parseSOAPFault scenarioCBody = some (strD "SOAP fault in response") ∧
    parseSOAPFault scenarioCBody ≠ some (strD "not authorized") ∧
    parseSOAPFault scenarioCBody ≠ some (strD "SOAP fault: Sender not authorized") ∧
    extractTextElement (extractBetweenTags scenarioCBody (strD "Reason")) = [] := by
  decide

/-- C4: when the HTTP round trip ends with status ≥ 400,
`sendSOAPRequest` returns the full body together with an error
describing the status when the body is non-empty, and an error with no
body when the body is empty; an HTTP 401 with empty body surfaces as
the transport error `HTTP 401 with empty response`. -/
theorem http_error_status_handling :
    (∀ (status : Nat) (body : LC), 400 ≤ status → body ≠ [] →
        statusCheck status body =
          (some body,
           some (strD "HTTP " ++ (toString status).data ++ strD ": " ++ goStatusText status))) ∧
    (∀ status : Nat, 400 ≤ status →
        statusCheck status [] =
          (none, some (strD "HTTP " ++ (toString status).data ++ strD " with empty response"))) ∧
    statusCheck 401 [] = (none, some (strD "HTTP 401 with empty response")) := by
  refine ⟨?_, ?_, by decide⟩
  · intro status body hs hb
    rw [statusCheck, if_pos hs, if_neg (fun hlen => hb (List.length_eq_zero.mp hlen))]
  · intro status hs
    rw [statusCheck, if_pos hs]
    simp

/-- Witness for C4 at HTTP 403 with a non-empty body. -/
theorem http_error_status_handling_witness :
    statusCheck 403 (strD "denied") =
      (some (strD "denied"),
       some (strD "HTTP " ++ (toString (403 : Nat)).data ++ strD ": " ++ goStatusText 403)) :=
  http_error_status_handling.1 403 (strD "denied") (by decide) (by decide)

/-- C5: the digest equals base64(SHA1(nonce ‖ created ‖ secret)) with
the returned nonce equal to base64(nonce) (the Go code's three
sequential `Write` calls hash exactly that concatenation); the
computation is deterministic in its inputs; and on the tested corpus
changing any one of nonce, created or secret changes the digest. -/
theorem password_digest_formula :
    (∀ n c p : List Nat,
        generatePasswordDigest n c p =
          (base64Encode (sha1 (n ++ c ++ p)), base64Encode n, c)) ∧
    (∀ n c p n' c' p' : List Nat, n = n' → c = c' → p = p' →
        generatePasswordDigest n c p = generatePasswordDigest n' c' p') ∧
    (generatePasswordDigest corpusNonce corpusCreated corpusSecret ≠
       generatePasswordDigest corpusNonce2 corpusCreated corpusSecret ∧
     generatePasswordDigest corpusNonce corpusCreated corpusSecret ≠
       generatePasswordDigest corpusNonce corpusCreated2 corpusSecret ∧
     generatePasswordDigest corpusNonce corpusCreated corpusSecret ≠
       generatePasswordDigest corpusNonce corpusCreated corpusSecret2) := by
  refine ⟨fun n c p => rfl,
          fun n c p n' c' p' hn hc hp => by rw [hn, hc, hp],
          ?_, ?_, ?_⟩ <;> decide

/-- Witness for C5: the determinism clause applied at the corpus
input. -/
theorem password_digest_formula_witness :
    generatePasswordDigest corpusNonce corpusCreated corpusSecret =
      generatePasswordDigest corpusNonce corpusCreated corpusSecret :=
  password_digest_formula.2.1 corpusNonce corpusCreated corpusSecret
    corpusNonce corpusCreated corpusSecret rfl rfl rfl

/-- C6: the claim states that extraction returns exactly the inner
text of a uniquely occurring element, whatever namespace prefix
decorates it.  For any prefixed element the code instead returns the
inner text plus a trailing `</` and the closing tag's prefix, because
the closing-tag search locates the `":Name>"` marker inside
`"</s:Name>"` and slices up to the colon rather than the `<`.  This
theorem evaluates the embedding at such an input. -/
theorem extract_between_tags_close_junk :
    extractBetweenTags (strD "<s:Reason>hello</s:Reason>") (strD "Reason") = strD "hello</s" ∧
    extractBetweenTags (strD "<s:Reason>hello</s:Reason>") (strD "Reason") ≠ strD "hello" := by
  decide

/-- C7: with an empty username the envelope contains no Security
header (the header element is present but empty), and with a
non-empty username a Security block with UsernameToken is emitted
inside the header. -/
theorem envelope_security_header :
    (∀ d n c b : LC, buildEnvelope [] d n c b = envA ++ envB ++ b ++ envC) ∧
    (∀ d n c : LC, goContains (buildEnvelope [] d n c []) (strD "<Security") = false) ∧
    (∀ d n c b : LC, goContains (buildEnvelope [] d n c b) (strD "<s:Header>") = true) ∧
    (∀ u d n c b : LC, u ≠ [] →
        goContains (buildEnvelope u d n c b) (strD "<Security") = true ∧
        goContains (buildEnvelope u d n c b) (strD "<UsernameToken>") = true) := by
  refine ⟨?_, ?_, ?_, ?_⟩
  · intro d n c b
    simp [buildEnvelope, authHeader]
  · intro d n c
    have h1 : buildEnvelope [] d n c [] = envA ++ envB ++ [] ++ envC := by
      simp [buildEnvelope, authHeader]
    rw [h1]
    decide
  · intro d n c b
    rw [buildEnvelope, List.append_assoc, List.append_assoc, List.append_assoc]
    refine goContains_of_drop (envA.length - 10) ?_
    rw [drop_append_le envA _ _ (by decide)]
    exact leadsList_append _ (by decide)
  · intro u d n c b hu
    rw [buildEnvelope, authHeader, if_neg hu, securityBlock]
    simp only [List.append_assoc]
    constructor
    · refine goContains_of_drop (envA.length + 3) ?_
      rw [drop_append_len envA _ 3, drop_append_le secA _ 3 (by decide)]
      exact leadsList_append _ (by decide)
    · refine goContains_of_drop (envA.length + (secA.length - 30)) ?_
      rw [drop_append_len envA _ _, drop_append_le secA _ _ (by decide)]
      exact leadsList_append _ (by decide)

/-- Witness for C7 at a concrete non-empty username. -/
theorem envelope_security_header_witness :
    goContains (buildEnvelope (strD "admin") (strD "DIG") (strD "NON") (strD "CRE")
        (strD "<tds:GetUsers/>")) (strD "<Security") = true ∧
    goContains (buildEnvelope (strD "admin") (strD "DIG") (strD "NON") (strD "CRE")
        (strD "<tds:GetUsers/>")) (strD "<UsernameToken>") = true :=
  envelope_security_header.2.2.2 (strD "admin") (strD "DIG") (strD "NON") (strD "CRE")
    (strD "<tds:GetUsers/>") (by decide)

/-- C8: on candidate lists whose addresses all tokenize,
deduplication is idempotent, and permuting the input does not change
which keys (first address tokens) appear in the result — only which
duplicate's metadata survives may vary. -/
theorem dedup_idempotent_perm_inv :
    (∀ l : List Camera, (∀ c ∈ l, goFields c.address ≠ []) →
        deduplicateCameras ((deduplicateCameras l).getD []) = deduplicateCameras l) ∧
    (∀ l l' : List Camera, (∀ c ∈ l, goFields c.address ≠ []) → l.Perm l' →
        ∀ k : LC,
          (∃ c ∈ (deduplicateCameras l).getD [], keyOf c = k) ↔
          (∃ c ∈ (deduplicateCameras l').getD [], keyOf c = k)) := by
  constructor
  · intro l h
    rw [dedup_refines l h, Option.getD_some]
    have hsub : ∀ c ∈ dedupFirstSeenSpec l, goFields c.address ≠ [] :=
      fun c hc => h c (firstSeen_subset l [] c hc)
    rw [dedup_refines _ hsub]
    refine congrArg some ?_
    simp only [dedupFirstSeenSpec]
    exact firstSeen_id (firstSeen [] l) [] (firstSeen_keys l []).1 (by simp)
  · intro l l' h hperm k
    have h' : ∀ c ∈ l', goFields c.address ≠ [] :=
      fun c hc => h c (hperm.symm.subset hc)
    rw [dedup_refines l h, dedup_refines l' h']
    simp only [Option.getD_some, dedupFirstSeenSpec]
    have main : ∀ (a b : List Camera), a.Perm b → ∀ k0 : LC,
        (∃ c ∈ firstSeen [] a, keyOf c = k0) → ∃ c ∈ firstSeen [] b, keyOf c = k0 := by
      rintro a b hab k0 ⟨c, hc, rfl⟩
      have h1 : keyOf c ∈ (firstSeen [] a).map keyOf := List.mem_map.mpr ⟨c, hc, rfl⟩
      obtain ⟨-, c0, hc0, hk0⟩ := (firstSeen_key_mem a [] _).mp h1
      have h2 : keyOf c ∈ (firstSeen [] b).map keyOf :=
        (firstSeen_key_mem b [] _).mpr ⟨by simp, c0, hab.subset hc0, hk0⟩
      obtain ⟨c', hc', hkc'⟩ := List.mem_map.mp h2
      exact ⟨c', hc', hkc'⟩
    exact ⟨main l l' hperm k, main l' l hperm.symm k⟩

/-- Witness for C8 at the Scenario B list and its swap. -/
theorem dedup_idempotent_perm_inv_witness :
    deduplicateCameras ((deduplicateCameras [camB1, camB2]).getD []) =
      deduplicateCameras [camB1, camB2] ∧
    ((∃ c ∈ (deduplicateCameras [camB1, camB2]).getD [], keyOf c = keyOf camB1) ↔
     (∃ c ∈ (deduplicateCameras [camB2, camB1]).getD [], keyOf c = keyOf camB1)) :=
  ⟨dedup_idempotent_perm_inv.1 [camB1, camB2] (by decide),
   dedup_idempotent_perm_inv.2 [camB1, camB2] [camB2, camB1] (by decide)
     (List.Perm.swap camB2 camB1 []) (keyOf camB1)⟩

/-- C9 counterexample: the claim states that a token matching the
location pattern sets the location.  The token `locNameToken` begins
with (hence contains) the location pattern, yet `parseScopes` leaves
the location empty and instead sets the display name, because the
`Contains`-based name branch is checked first and the token also
contains the name pattern further in. -/
theorem parseScopes_location_clause_cex :
    goContains (trimSpace locNameToken) locationPat = true ∧
    leadsList locationPat locNameToken = true ∧
    (parseScopes locNameToken).2.1 = [] ∧
    (parseScopes locNameToken).2.1 ≠ strD "onvif://www.onvif.org/name/x" ∧
    (parseScopes locNameToken).1 = strD "onvif://www.onvif.org/location/x" := by
  decide

/-- C9 (amended): `parseScopes` splits on single spaces, trims each
token, and fills each field from the *last* token selected for it,
where a token sets the name iff it contains the name pattern, sets the
location iff it contains the location pattern but not the name
pattern, and sets the hardware model iff it contains the hardware
pattern and neither of the other two (name takes priority over
location over hardware); tokens matching no pattern are ignored and
cause no error (the function is total). -/
theorem parseScopes_last_match (scopes : LC) :
    parseScopes scopes =
      (lastSet namePat selName (splitSpace scopes) [],
       lastSet locationPat selLoc (splitSpace scopes) [],
       lastSet hardwarePat selHw (splitSpace scopes) []) :=
  foldl_parseScopes (splitSpace scopes) ([], [], [])

/-- C10: the escaped output contains no literal `<`, `>`, `"` (code
point 34) or `'` (code point 39), and every `&` in the output begins
one of the five entities, so user-controlled strings embedded into
CreateUsers/SetUser/DeleteUsers bodies cannot open or close XML
elements. -/
theorem escapeXML_output_safe (s : LC) :
    (∀ x ∈ escapeXML s, x ≠ '<' ∧ x ≠ '>' ∧ x ≠ Char.ofNat 34 ∧ x ≠ Char.ofNat 39) ∧
    (∀ i : Nat, ((escapeXML s).drop i).head? = some '&' →
        ∃ e ∈ xmlEntities, leadsList e ((escapeXML s).drop i) = true) := by
  constructor
  · intro x hx
    rw [escapeXML_eq_flatMap] at hx
    obtain ⟨c, _, hxc⟩ := List.mem_flatMap.mp hx
    exact escRule_chars c x hxc
  · intro i h
    rw [escapeXML_eq_flatMap] at h ⊢
    exact flatMap_amp s i h

/-- Witness for C10 at the concrete input `a<b`. -/
theorem escapeXML_output_safe_witness :
    ('a' ≠ '<' ∧ 'a' ≠ '>' ∧ 'a' ≠ Char.ofNat 34 ∧ 'a' ≠ Char.ofNat 39) ∧
    (∃ e ∈ xmlEntities, leadsList e ((escapeXML (strD "a<b")).drop 1) = true) :=
  ⟨(escapeXML_output_safe (strD "a<b")).1 'a' (by decide),
   (escapeXML_output_safe (strD "a<b")).2 1 (by decide)⟩

end Onvif
